import Mathlib

/-!
Verification development for the temperament evaluator
(files te_optimizer_legacy.py, te_temperament_measures.py, te_symbolic.py,
te_lattice.py).

Modelling conventions.

* Machine floats are modelled by the real numbers; rational inputs by ℚ.
* numpy arrays are modelled by Mathlib matrices over `Fin`-indexed types.
  Because the skew transform changes the column count (n columns when
  skew = 0, n + 1 columns otherwise), matrix-returning operations return a
  sigma pair of the column count and the matrix.
* A Python function that can raise returns `Except Err _`, where `Err`
  records the Python exception class and message that the source raises.
* `np.inf` inputs for the skew and order fields of a norm profile are
  modelled by `Option ℚ`: `some q` is a finite value, `none` is infinity.
* `scipy.optimize.minimize` (the SLSQP path) is an external numeric
  routine; it is modelled as an unspecified but fixed, deterministic
  function obtained from `Classical.arbitrary`.  `scipy.linalg.lstsq` and
  `scipy.linalg.pinv` compute the minimum-norm least-squares solution and
  the Moore-Penrose pseudoinverse; the pseudoinverse is modelled by a
  choice function on the four Penrose equations.
-/

namespace TE

open scoped Matrix

/-- Python exception classes raised by the sources, with their messages. -/
inductive Err where
  | notImplemented (msg : String)
  | zeroDivision (msg : String)
  | indexError (msg : String)
  | valueError (msg : String)
deriving DecidableEq

/-- Norm profile from te_optimizer_legacy.py (class `Norm`).  Fields are the
constructor arguments; `skew` and `order` may be infinite (`none`). -/
structure Norm where
  wtype : String
  wamount : ℚ
  skew : Option ℚ
  order : Option ℚ
deriving DecidableEq

/-- `PRIME_LIST` from te_optimizer_legacy.py. -/
def PRIME_LIST : List ℚ :=
  [2, 3, 5, 7, 11, 13, 17, 19, 23, 29, 31, 37, 41, 43, 47, 53, 59, 61, 67,
   71, 73, 79, 83, 89]

/-- `SCALAR` from te_optimizer_legacy.py (1200, cents per octave). -/
def SCALAR : ℝ := 1200

/-- `Norm.__get_weight`: the diagonal weight matrix for a subgroup, together
with the norm profile as it stands after the call.  The source MUTATES
`self.wtype` to "tenney" when the weighter type is not supported (with a
warning) before recursing; the recursion is inlined here, and the updated
profile is returned as the first component to make that effect visible. -/
noncomputable def Norm.get_weight (norm : Norm) (sg : List ℚ) :
    Norm × Matrix (Fin sg.length) (Fin sg.length) ℝ :=
  if norm.wtype = "tenney" then
    (norm, Matrix.diagonal fun i => ((Real.logb 2 (sg.get i))⁻¹) ^ ((norm.wamount : ℝ)))
  else if norm.wtype = "wilson" ∨ norm.wtype = "benedetti" then
    (norm, Matrix.diagonal fun i => (((sg.get i : ℚ) : ℝ))⁻¹ ^ ((norm.wamount : ℝ)))
  else if norm.wtype = "equilateral" then
    (norm, Matrix.diagonal fun _ => (1 : ℝ) ^ ((norm.wamount : ℝ)))
  else
    ({ norm with wtype := "tenney" },
     Matrix.diagonal fun i => ((Real.logb 2 (sg.get i))⁻¹) ^ ((norm.wamount : ℝ)))

/-- The matrix `np.append (np.eye n - kr * np.ones (n, n), r * np.ones (n, 1),
axis = 1)` from `Norm.__get_skew`. -/
noncomputable def skewAppend (n : ℕ) (kr r : ℝ) : Matrix (Fin n) (Fin (n + 1)) ℝ :=
  Matrix.of fun i =>
    Fin.append (fun j : Fin n => (1 : Matrix (Fin n) (Fin n) ℝ) i j - kr)
      (fun _ : Fin 1 => r)

/-- `Norm.__get_skew`: identity when skew = 0; otherwise, for Euclidean order,
the n × (n+1) augmented skew matrix; otherwise NotImplementedError. -/
noncomputable def Norm.get_skew (norm : Norm) (n : ℕ) :
    Except Err ((m : ℕ) × Matrix (Fin n) (Fin m) ℝ) :=
  if norm.skew = some 0 then
    .ok ⟨n, 1⟩
  else if norm.order = some 2 then
    match norm.skew with
    | some s =>
      .ok ⟨n + 1, skewAppend n ((s : ℝ) * ((s : ℝ) / (n * (s : ℝ) ^ 2 + 1)))
            ((s : ℝ) / (n * (s : ℝ) ^ 2 + 1))⟩
    | none =>
      .ok ⟨n + 1, skewAppend n (1 / (n : ℝ)) 0⟩
  else
    .error (.notImplemented "Weil skew only works with Euclidean norm as of now. ")

/-- `Norm.weightskewed (main, subgroup)` = `main @ __get_weight (subgroup)
@ __get_skew (subgroup)`; the skew is taken on the profile as left by the
weight computation (which may have replaced an unknown wtype by tenney). -/
noncomputable def Norm.weightskewed (norm : Norm) (sg : List ℚ) {k : ℕ}
    (main : Matrix (Fin k) (Fin sg.length) ℝ) :
    Except Err ((m : ℕ) × Matrix (Fin k) (Fin m) ℝ) :=
  match (norm.get_weight sg).1.get_skew sg.length with
  | .error e => .error e
  | .ok ⟨m, S⟩ => .ok ⟨m, main * (norm.get_weight sg).2 * S⟩

lemma skewAppend_apply (n : ℕ) (kr r : ℝ) (i : Fin n) (j : Fin (n + 1)) :
    skewAppend n kr r i j =
      if (j : ℕ) < n then (if (i : ℕ) = (j : ℕ) then 1 else 0) - kr else r := by
  unfold skewAppend
  by_cases h : (j : ℕ) < n
  · have hj : j = Fin.castAdd 1 ⟨(j : ℕ), h⟩ := by
      apply Fin.ext; simp
    rw [hj]
    simp only [Matrix.of_apply, Fin.append_left, Fin.coe_castAdd]
    rw [if_pos h, Matrix.one_apply]
    congr 1
    simp [Fin.ext_iff]
  · have hj : j = Fin.natAdd n ⟨0, Nat.zero_lt_one⟩ := by
      apply Fin.ext
      simp only [Fin.natAdd]
      omega
    rw [hj]
    simp only [Matrix.of_apply, Fin.append_right, Fin.coe_natAdd]
    rw [if_neg (by omega)]

/-- C5: `__get_skew` returns the identity when skew = 0; fails with
NotImplementedError (the realization of UnsupportedOrderError) when
skew ≠ 0 and order ≠ 2; and otherwise returns the n × (n+1) matrix
`[I - kr·J | r·1]` with `r = skew/(n·skew² + 1)` and `kr = skew·r`,
where for infinite skew `r = 0` and `kr = 1/n`. -/
theorem c5_skew_transform (norm : Norm) (n : ℕ) :
    (norm.skew = some 0 → norm.get_skew n = .ok ⟨n, 1⟩) ∧
    (norm.skew ≠ some 0 → norm.order ≠ some 2 →
      norm.get_skew n =
        .error (.notImplemented "Weil skew only works with Euclidean norm as of now. ")) ∧
    (∀ s : ℚ, norm.skew = some s → s ≠ 0 → norm.order = some 2 →
      ∃ M, norm.get_skew n = .ok ⟨n + 1, M⟩ ∧
        ∀ i j, M i j =
          if (j : ℕ) < n then
            (if (i : ℕ) = (j : ℕ) then 1 else 0) - (s : ℝ) * ((s : ℝ) / (n * (s : ℝ) ^ 2 + 1))
          else (s : ℝ) / (n * (s : ℝ) ^ 2 + 1)) ∧
    (norm.skew = none → norm.order = some 2 →
      ∃ M, norm.get_skew n = .ok ⟨n + 1, M⟩ ∧
        ∀ i j, M i j =
          if (j : ℕ) < n then
            (if (i : ℕ) = (j : ℕ) then 1 else 0) - 1 / (n : ℝ)
          else 0) := by
  refine ⟨fun h0 => ?_, fun h0 h2 => ?_, fun s hs hs0 h2 => ?_, fun hinf h2 => ?_⟩
  · unfold Norm.get_skew
    rw [if_pos h0]
  · unfold Norm.get_skew
    rw [if_neg h0, if_neg h2]
  · refine ⟨skewAppend n ((s : ℝ) * ((s : ℝ) / (n * (s : ℝ) ^ 2 + 1)))
      ((s : ℝ) / (n * (s : ℝ) ^ 2 + 1)), ?_, ?_⟩
    · unfold Norm.get_skew
      rw [if_neg (by rw [hs]; simp [hs0]), if_pos h2, hs]
    · intro i j
      rw [skewAppend_apply]
  · refine ⟨skewAppend n (1 / (n : ℝ)) 0, ?_, ?_⟩
    · unfold Norm.get_skew
      rw [if_neg (by simp [hinf]), if_pos h2, hinf]
    · intro i j
      rw [skewAppend_apply]

/-- Witness for C5 at concrete inputs: skew 0 gives the 2 × 2 identity;
skew 1 with order 3 fails with NotImplementedError; infinite skew with
order 2 gives the augmented 2 × 3 matrix. -/
theorem c5_skew_transform_witness :
    ((⟨"tenney", 1, some 0, some 2⟩ : Norm).get_skew 2 = .ok ⟨2, 1⟩) ∧
    ((⟨"tenney", 1, some 1, some 3⟩ : Norm).get_skew 2 =
      .error (.notImplemented "Weil skew only works with Euclidean norm as of now. ")) ∧
    (∃ M, (⟨"tenney", 1, none, some 2⟩ : Norm).get_skew 2 = .ok ⟨3, M⟩ ∧
      ∀ i j, M i j =
        if (j : ℕ) < 2 then
          (if (i : ℕ) = (j : ℕ) then 1 else 0) - 1 / ((2 : ℕ) : ℝ)
        else 0) :=
  ⟨(c5_skew_transform ⟨"tenney", 1, some 0, some 2⟩ 2).1 rfl,
   (c5_skew_transform ⟨"tenney", 1, some 1, some 3⟩ 2).2.1 (by decide) (by decide),
   (c5_skew_transform ⟨"tenney", 1, none, some 2⟩ 2).2.2.2 rfl rfl⟩

/-- Helper: the profile returned by `__get_weight` is the input profile,
except that an unknown wtype has been overwritten with "tenney". -/
lemma get_weight_fst (norm : Norm) (sg : List ℚ) :
    (norm.get_weight sg).1 =
      if norm.wtype = "tenney" ∨ norm.wtype = "wilson" ∨ norm.wtype = "benedetti" ∨
          norm.wtype = "equilateral"
      then norm else { norm with wtype := "tenney" } := by
  unfold Norm.get_weight
  split_ifs with h1 h2 h3 h4 h5 h6 <;> simp_all

lemma get_weight_fst_skew (norm : Norm) (sg : List ℚ) :
    (norm.get_weight sg).1.skew = norm.skew := by
  rw [get_weight_fst]; split <;> rfl

lemma get_weight_fst_order (norm : Norm) (sg : List ℚ) :
    (norm.get_weight sg).1.order = norm.order := by
  rw [get_weight_fst]; split <;> rfl

/-- Helper: for Euclidean order the skew transform always succeeds. -/
lemma get_skew_isOk_of_order_two (norm : Norm) (h2 : norm.order = some 2) (n : ℕ) :
    ∃ m S, norm.get_skew n = .ok ⟨m, S⟩ := by
  by_cases h0 : norm.skew = some 0
  · exact ⟨n, 1, by unfold Norm.get_skew; rw [if_pos h0]⟩
  · cases hs : norm.skew with
    | some s =>
      exact ⟨n + 1, _, by unfold Norm.get_skew; rw [if_neg h0, if_pos h2, hs]⟩
    | none =>
      exact ⟨n + 1, _, by unfold Norm.get_skew; rw [if_neg h0, if_pos h2, hs]⟩

/-- C7 (amended): deriving the weight matrix leaves the norm profile
unchanged for the supported weighting kinds (tenney, wilson, benedetti,
equilateral); for an unknown kind the computation warns, degrades to tenney,
and MUTATES the profile, overwriting its wtype field with "tenney" — so the
profile is not immutable in that case. -/
theorem c7_weight_profile_mutation (norm : Norm) (sg : List ℚ) :
    (norm.get_weight sg).1 =
      if norm.wtype = "tenney" ∨ norm.wtype = "wilson" ∨ norm.wtype = "benedetti" ∨
          norm.wtype = "equilateral"
      then norm else { norm with wtype := "tenney" } :=
  get_weight_fst norm sg

/-- C7 counterexample: with the unknown weighting kind "hahn", the weight
computation returns a profile whose wtype field has been changed, so the
norm profile is not immutable as claimed. -/
theorem c7_counterexample :
    ((⟨"hahn", 1, some 0, some 2⟩ : Norm).get_weight [2, 3]).1 ≠
      ⟨"hahn", 1, some 0, some 2⟩ := by
  unfold Norm.get_weight
  decide

/-! ## The numeric optimizer (te_optimizer_legacy.py) -/

/-- The just tuning map `jip = np.log2 (subgroup) * SCALAR`. -/
noncomputable def jip (sg : List ℚ) : Fin sg.length → ℝ :=
  fun i => Real.logb 2 (sg.get i) * SCALAR

/-- A 1-D numpy array used as a single-row matrix. -/
def rowOf {n : ℕ} (v : Fin n → ℝ) : Matrix (Fin 1) (Fin n) ℝ :=
  Matrix.of fun _ j => v j

open Classical in
/-- The Moore-Penrose pseudoinverse (`scipy.linalg.pinv` / `Matrix.pinv` in
sympy), modelled by choice on the four Penrose equations. -/
noncomputable def mpPinv {a b : ℕ} (A : Matrix (Fin a) (Fin b) ℝ) :
    Matrix (Fin b) (Fin a) ℝ :=
  if h : ∃ X : Matrix (Fin b) (Fin a) ℝ,
      A * X * A = A ∧ X * A * X = X ∧ (A * X)ᵀ = A * X ∧ (X * A)ᵀ = X * A
  then h.choose else 0

set_option linter.unusedVariables false in
/-- `scipy.optimize.minimize` (SLSQP): an external, deterministic numeric
routine returning a success flag and a point; modelled as an unspecified
fixed function. -/
noncomputable def scipy_minimize {r : ℕ} (f : (Fin r → ℝ) → ℝ) (gen0 : Fin r → ℝ)
    (cons : Option ((Fin r → ℝ) → List ℝ)) : Bool × (Fin r → ℝ) :=
  Classical.choice ⟨(false, fun _ => 0)⟩

/-- `__error (gen, vals, jip, order)` = `linalg.norm (gen @ vals - jip,
ord = order)`: the vector p-norm of the residual (max-norm for infinite
order). -/
noncomputable def errNorm {m : ℕ} (o : Option ℚ) (v : Fin m → ℝ) : ℝ :=
  match o with
  | none => ⨆ i, |v i|
  | some p => (∑ i, |v i| ^ ((p : ℝ))) ^ (((p : ℝ))⁻¹)

/-- The destretch block of `optimizer_main` (lines 88-94): at most one
destretch column is allowed (IndexError otherwise, the realization of
ValidationError); a target of tempered size zero raises ZeroDivisionError
(the realization of SingularTargetError); otherwise the generator map is
rescaled by `(jip @ des_monzo) / tempered_size`. -/
noncomputable def destretch_main {r n : ℕ} (gen : Fin r → ℝ)
    (vals : Matrix (Fin r) (Fin n) ℝ) (jipv : Fin n → ℝ)
    (des : List (Fin n → ℝ)) : Except Err (Fin r → ℝ) :=
  match des with
  | [d] =>
    if Matrix.dotProduct (Matrix.vecMul gen vals) d = 0 then
      .error (.zeroDivision "destretch target is in the nullspace. ")
    else
      .ok ((Matrix.dotProduct jipv d / Matrix.dotProduct (Matrix.vecMul gen vals) d) • gen)
  | _ => .error (.indexError "only one destretch target is allowed. ")

/-- `optimizer_main` from te_optimizer_legacy.py.  The subgroup is taken as
given with matching dimension (the subgroup-inference/truncation of
`__get_subgroup` is not exercised by any claim).  Constraints and the
destretch target are lists of columns.  The weight and skew transforms are
computed once and applied to both the mapping and the just tuning map, as
the two `weightskewed` calls in the source do. -/
noncomputable def optimizer_main {r : ℕ} (sg : List ℚ)
    (vals : Matrix (Fin r) (Fin sg.length) ℝ) (norm : Norm)
    (cons : Option (List (Fin sg.length → ℝ)))
    (des : Option (List (Fin sg.length → ℝ))) :
    Except Err ((Fin r → ℝ) × (Fin sg.length → ℝ) × (Fin sg.length → ℝ)) :=
  match (norm.get_weight sg).1.get_skew sg.length with
  | .error e => .error e
  | .ok ⟨_, S⟩ =>
    let W := (norm.get_weight sg).2
    let vals_wx := vals * W * S
    let jip_wx := Matrix.vecMul (Matrix.vecMul (jip sg) W) S
    let genRes : Except Err (Fin r → ℝ) :=
      if norm.order = some 2 ∧ cons.isNone then
        .ok (Matrix.mulVec (mpPinv vals_wxᵀ) jip_wx)
      else
        let res := scipy_minimize
          (fun gen => errNorm norm.order (Matrix.vecMul gen vals_wx - jip_wx))
          (fun _ => SCALAR)
          (cons.map fun cl gen => cl.map fun c =>
            Matrix.dotProduct (Matrix.vecMul gen vals - jip sg) c)
        if res.1 then .ok res.2
        else .error (.valueError "infeasible optimization problem. ")
    match genRes with
    | .error e => .error e
    | .ok gen =>
      match des with
      | none => .ok (gen, Matrix.vecMul gen vals, Matrix.vecMul gen vals - jip sg)
      | some dl =>
        match destretch_main gen vals (jip sg) dl with
        | .error e => .error e
        | .ok gen2 => .ok (gen2, Matrix.vecMul gen2 vals, Matrix.vecMul gen2 vals - jip sg)

/-- The destretch block of `optimizer_symbolic` (te_symbolic.py lines
203-208): the tempered size and the rescaling factor are computed as 1 × 1
determinants, and the tuning projection is rescaled. -/
noncomputable def destretch_sym {n : ℕ} (tuning_projection : Matrix (Fin n) (Fin n) ℝ)
    (jipr : Matrix (Fin 1) (Fin n) ℝ) (des : Matrix (Fin n) (Fin 1) ℝ) :
    Except Err (Matrix (Fin n) (Fin n) ℝ) :=
  if (jipr * tuning_projection * des).det = 0 then
    .error (.zeroDivision "destretch target is in the nullspace. ")
  else
    .ok (((jipr * des).det / (jipr * tuning_projection * des).det) • tuning_projection)

lemma rowOf_mul {n p : ℕ} (v : Fin n → ℝ) (A : Matrix (Fin n) (Fin p) ℝ) :
    rowOf v * A = rowOf (Matrix.vecMul v A) := by
  ext i j
  simp [rowOf, Matrix.mul_apply, Matrix.vecMul, Matrix.dotProduct]

/-- C1: `weightskewed (main, subgroup)` is `main @ weight @ skew` (with the
skew taken on the profile left by the weight computation), and
`optimizer_main` applies this same transform to both the mapping `vals` and
the just tuning map `jip` before solving: on the Euclidean
no-constraint path the returned generator map is the least-squares solution
computed from the weight-skewed mapping and weight-skewed just map. -/
theorem c1_weightskewed_and_optimizer (sg : List ℚ) {r : ℕ}
    (vals : Matrix (Fin r) (Fin sg.length) ℝ) (norm : Norm)
    (w : String) (a : ℚ) (sk : Option ℚ) :
    (∀ {k : ℕ} (main : Matrix (Fin k) (Fin sg.length) ℝ),
      norm.weightskewed sg main = Except.map
        (fun p => ⟨p.1, main * (norm.get_weight sg).2 * p.2⟩)
        ((norm.get_weight sg).1.get_skew sg.length)) ∧
    (∃ (m : ℕ) (Vx : Matrix (Fin r) (Fin m) ℝ) (Jx : Matrix (Fin 1) (Fin m) ℝ),
      (⟨w, a, sk, some 2⟩ : Norm).weightskewed sg vals = .ok ⟨m, Vx⟩ ∧
      (⟨w, a, sk, some 2⟩ : Norm).weightskewed sg (rowOf (jip sg)) = .ok ⟨m, Jx⟩ ∧
      optimizer_main sg vals ⟨w, a, sk, some 2⟩ none none =
        .ok (Matrix.mulVec (mpPinv Vxᵀ) (fun j => Jx 0 j),
             Matrix.vecMul (Matrix.mulVec (mpPinv Vxᵀ) (fun j => Jx 0 j)) vals,
             Matrix.vecMul (Matrix.mulVec (mpPinv Vxᵀ) (fun j => Jx 0 j)) vals - jip sg)) := by
  constructor
  · intro k main
    cases h : (norm.get_weight sg).1.get_skew sg.length with
    | error e => simp [Norm.weightskewed, h, Except.map]
    | ok p =>
      cases p with
      | mk m S => simp [Norm.weightskewed, h, Except.map]
  · have h2 : ((⟨w, a, sk, some 2⟩ : Norm).get_weight sg).1.order = some 2 := by
      rw [get_weight_fst_order]
    obtain ⟨m, S, hS⟩ := get_skew_isOk_of_order_two _ h2 sg.length
    refine ⟨m, vals * ((⟨w, a, sk, some 2⟩ : Norm).get_weight sg).2 * S,
      rowOf (jip sg) * ((⟨w, a, sk, some 2⟩ : Norm).get_weight sg).2 * S, ?_, ?_, ?_⟩
    · simp [Norm.weightskewed, hS]
    · simp [Norm.weightskewed, hS]
    · have hJ : (fun j => (rowOf (jip sg) * ((⟨w, a, sk, some 2⟩ : Norm).get_weight sg).2 * S) 0 j)
          = Matrix.vecMul (Matrix.vecMul (jip sg) ((⟨w, a, sk, some 2⟩ : Norm).get_weight sg).2) S := by
        rw [rowOf_mul, rowOf_mul]
        rfl
      rw [hJ]
      simp [optimizer_main, hS]

/-- C2: the destretch post-processing.  For a single destretch column `d`:
if `gen @ vals @ d = 0` it fails with ZeroDivisionError (the realization of
SingularTargetError), returning no partial result; otherwise the generator
map is rescaled so that the tempered size of `d` afterwards equals its just
size.  A destretch list without exactly one column fails with IndexError
(the realization of ValidationError).  The symbolic optimizer has the same
destretch semantics through 1 × 1 determinant ratios. -/
theorem c2_destretch (n : ℕ) {r : ℕ} (gen : Fin r → ℝ)
    (vals : Matrix (Fin r) (Fin n) ℝ) (jipv : Fin n → ℝ) (d : Fin n → ℝ) :
    (Matrix.dotProduct (Matrix.vecMul gen vals) d = 0 →
      destretch_main gen vals jipv [d] =
        .error (.zeroDivision "destretch target is in the nullspace. ")) ∧
    (Matrix.dotProduct (Matrix.vecMul gen vals) d ≠ 0 →
      ∃ gen2, destretch_main gen vals jipv [d] = .ok gen2 ∧
        Matrix.dotProduct (Matrix.vecMul gen2 vals) d = Matrix.dotProduct jipv d) ∧
    (∀ dl : List (Fin n → ℝ), dl.length ≠ 1 →
      destretch_main gen vals jipv dl =
        .error (.indexError "only one destretch target is allowed. ")) ∧
    (∀ (sg : List ℚ) (vals2 : Matrix (Fin r) (Fin sg.length) ℝ) (w : String)
        (aq : ℚ) (sk : Option ℚ) (dl : List (Fin sg.length → ℝ)),
      ∃ gen2, optimizer_main sg vals2 ⟨w, aq, sk, some 2⟩ none (some dl) =
        match destretch_main gen2 vals2 (jip sg) dl with
        | .error e => .error e
        | .ok g2 => .ok (g2, Matrix.vecMul g2 vals2, Matrix.vecMul g2 vals2 - jip sg)) ∧
    (∀ (P : Matrix (Fin n) (Fin n) ℝ) (jipr : Matrix (Fin 1) (Fin n) ℝ)
        (dm : Matrix (Fin n) (Fin 1) ℝ),
      ((jipr * P * dm).det = 0 →
        destretch_sym P jipr dm =
          .error (.zeroDivision "destretch target is in the nullspace. ")) ∧
      ((jipr * P * dm).det ≠ 0 →
        ∃ P2, destretch_sym P jipr dm = .ok P2 ∧
          (jipr * P2 * dm).det = (jipr * dm).det)) := by
  refine ⟨fun h0 => ?_, fun h0 => ?_, fun dl hdl => ?_, fun sg vals2 w aq sk dl => ?_,
    fun P jipr dm => ⟨fun h0 => ?_, fun h0 => ?_⟩⟩
  · simp [destretch_main, h0]
  · refine ⟨(Matrix.dotProduct jipv d / Matrix.dotProduct (Matrix.vecMul gen vals) d) • gen,
      ?_, ?_⟩
    · simp only [destretch_main]
      rw [if_neg h0]
    · rw [Matrix.vecMul_smul, Matrix.smul_dotProduct, smul_eq_mul, div_mul_cancel₀ _ h0]
  · match dl, hdl with
    | [], _ => rfl
    | x :: y :: l, _ => rfl
  · have h2 : ((⟨w, aq, sk, some 2⟩ : Norm).get_weight sg).1.order = some 2 := by
      rw [get_weight_fst_order]
    obtain ⟨m, S, hS⟩ := get_skew_isOk_of_order_two _ h2 sg.length
    refine ⟨Matrix.mulVec (mpPinv (vals2 * ((⟨w, aq, sk, some 2⟩ : Norm).get_weight sg).2 * S)ᵀ)
      (Matrix.vecMul (Matrix.vecMul (jip sg) ((⟨w, aq, sk, some 2⟩ : Norm).get_weight sg).2) S), ?_⟩
    simp [optimizer_main, hS]
  · simp only [destretch_sym]
    rw [if_pos h0]
  · refine ⟨((jipr * dm).det / (jipr * P * dm).det) • P, ?_, ?_⟩
    · simp only [destretch_sym]
      rw [if_neg h0]
    · rw [Matrix.mul_smul, Matrix.smul_mul, Matrix.det_smul]
      simp only [Fintype.card_fin, pow_one]
      exact div_mul_cancel₀ _ h0

/-- Witness for C2 at concrete 1 × 1 inputs: a zero-size target fails with
ZeroDivisionError; a nonzero target yields a generator map under which the
target is pure; an empty destretch list fails with IndexError; and the
symbolic destretch fixes the target determinant. -/
theorem c2_destretch_witness :
    (destretch_main (fun _ : Fin 1 => (1 : ℝ)) !![(1 : ℝ)] (fun _ => 1200) [fun _ => 0] =
      .error (.zeroDivision "destretch target is in the nullspace. ")) ∧
    (∃ gen2, destretch_main (fun _ : Fin 1 => (1 : ℝ)) !![(1 : ℝ)] (fun _ => 1200) [fun _ => 1] =
        .ok gen2 ∧
      Matrix.dotProduct (Matrix.vecMul gen2 !![(1 : ℝ)]) (fun _ => 1) =
        Matrix.dotProduct (fun _ : Fin 1 => (1200 : ℝ)) (fun _ => 1)) ∧
    (destretch_main (fun _ : Fin 1 => (1 : ℝ)) !![(1 : ℝ)] (fun _ => 1200) [] =
      .error (.indexError "only one destretch target is allowed. ")) ∧
    (∃ P2, destretch_sym !![(5 : ℝ)] !![(1 : ℝ)] !![(1 : ℝ)] = .ok P2 ∧
      (!![(1 : ℝ)] * P2 * !![(1 : ℝ)]).det = (!![(1 : ℝ)] * !![(1 : ℝ)]).det) :=
  ⟨(c2_destretch 1 _ _ _ _).1
      (by simp [Matrix.vecMul, Matrix.dotProduct]),
   (c2_destretch 1 (fun _ : Fin 1 => (1 : ℝ)) !![(1 : ℝ)] (fun _ => 1200) (fun _ => 1)).2.1
      (by simp [Matrix.vecMul, Matrix.dotProduct]),
   (c2_destretch 1 (fun _ : Fin 1 => (1 : ℝ)) !![(1 : ℝ)] (fun _ => 1200) (fun _ => 1)).2.2.1 []
      (by simp),
   ((c2_destretch 1 (fun _ : Fin 1 => (1 : ℝ)) !![(1 : ℝ)] (fun _ => 1200) (fun _ => 1)).2.2.2.2
      !![(5 : ℝ)] !![(1 : ℝ)] !![(1 : ℝ)]).2
      (by simp [Matrix.det_fin_one, Matrix.mul_apply])⟩

/-! ## Temperament measures (te_temperament_measures.py) -/

/-- `itertools.combinations (range n, r)`: all size-r combinations in
lexicographic order. -/
def lexCombos {α : Type} : List α → ℕ → List (List α)
  | _, 0 => [[]]
  | [], _ + 1 => []
  | x :: xs, k + 1 => (lexCombos xs k).map (fun e => x :: e) ++ lexCombos xs (k + 1)

lemma lexCombos_length {α : Type} (l : List α) (k : ℕ) :
    (lexCombos l k).length = Nat.choose l.length k := by
  induction l generalizing k with
  | nil => cases k <;> simp [lexCombos]
  | cons x xs ih =>
    cases k with
    | zero => simp [lexCombos]
    | succ kk => simp [lexCombos, ih, Nat.choose_succ_succ]

/-- `np.copysign (1, x)` on a real scalar. -/
noncomputable def copysign1 (x : ℝ) : ℝ := if x < 0 then -1 else 1

/-- Column `k` of a matrix, read with numpy-style in-range indexing (the
sources only index columns below the width). -/
def colGet {a m : ℕ} (M : Matrix (Fin a) (Fin m) ℝ) (k : ℕ) : Fin a → ℝ :=
  fun i => if h : k < m then M i ⟨k, h⟩ else 0

/-- Determinant of the square submatrix of the listed columns. -/
noncomputable def minorDet {a m : ℕ} (M : Matrix (Fin a) (Fin m) ℝ)
    (entry : List ℕ) : ℝ :=
  Matrix.det (Matrix.of fun i (j : Fin a) => colGet M (entry.getD (j : ℕ) 0) i)

/-- `Temperament.wedgie`: determinants of all r-column minors of the
weight-skewed mapping, sign-normalized by the first entry.  Note that the
SOURCE DOES NOT CHECK the norm order here; only the skew transform inside
`weightskewed` can fail.  An empty minor list (r exceeding the column count)
hits `wedgie[0]` and raises IndexError. -/
noncomputable def wedgie {r : ℕ} (sg : List ℚ)
    (vals : Matrix (Fin r) (Fin sg.length) ℝ) (norm : Norm) : Except Err (List ℝ) :=
  match norm.weightskewed sg vals with
  | .error e => .error e
  | .ok ⟨_, Mx⟩ =>
    match (lexCombos (List.range sg.length) r).map (minorDet Mx) with
    | [] => .error (.indexError "index 0 is out of bounds for axis 0 with size 0")
    | w0 :: ws => .ok ((w0 :: ws).map fun x => x * copysign1 w0)

/-- The Frobenius norm (`linalg.norm` of a matrix or row). -/
noncomputable def frobNorm {a b : ℕ} (A : Matrix (Fin a) (Fin b) ℝ) : ℝ :=
  Real.sqrt (∑ i, ∑ j, (A i j) ^ 2)

/-- `Temperament.complexity`: requires Euclidean order, else
NotImplementedError; `sqrt (det (M_x @ M_xᵀ))`, scaled according to ntype
(unknown ntype degrades to "breed"). -/
noncomputable def complexity {r : ℕ} (sg : List ℚ)
    (vals : Matrix (Fin r) (Fin sg.length) ℝ) (ntype : String) (norm : Norm) :
    Except Err ℝ :=
  if norm.order ≠ some 2 then
    .error (.notImplemented "temperament measures only work for Euclidean norm as of now. ")
  else
    match norm.weightskewed sg vals with
    | .error e => .error e
    | .ok ⟨_, Mx⟩ =>
      let c := Real.sqrt (Mx * Mxᵀ).det
      if ntype = "breed" then .ok (c * (1 / Real.sqrt ((sg.length : ℝ) ^ r)))
      else if ntype = "smith" then
        .ok (c * (1 / Real.sqrt (((lexCombos (List.range sg.length) r).length : ℝ))))
      else if ntype = "none" then .ok c
      else .ok (c * (1 / Real.sqrt ((sg.length : ℝ) ^ r)))

/-- `Temperament.error`: requires Euclidean order, else NotImplementedError;
the norm of `J_x @ pinv (M_x) @ M_x - J_x`, scaled according to ntype.  The
"smith" scaling with n = r raises ZeroDivisionError in the source, which is
caught and turned into `np.nan`; NaN results are modelled by `none`. -/
noncomputable def errorMeas {r : ℕ} (sg : List ℚ)
    (vals : Matrix (Fin r) (Fin sg.length) ℝ) (ntype : String) (norm : Norm) :
    Except Err (Option ℝ) :=
  if norm.order ≠ some 2 then
    .error (.notImplemented "temperament measures only work for Euclidean norm as of now. ")
  else
    match (norm.get_weight sg).1.get_skew sg.length with
    | .error e => .error e
    | .ok ⟨_, S⟩ =>
      let W := (norm.get_weight sg).2
      let Mx := vals * W * S
      let Jx := rowOf (jip sg) * W * S
      let e := frobNorm (Jx * mpPinv Mx * Mx - Jx)
      if ntype = "breed" then .ok (some (e * (1 / Real.sqrt ((sg.length : ℝ)))))
      else if ntype = "smith" then
        if sg.length = r then .ok none
        else .ok (some (e * Real.sqrt (((r : ℝ) + 1) / ((sg.length : ℝ) - (r : ℝ)))))
      else if ntype = "none" then .ok (some e)
      else .ok (some (e * (1 / Real.sqrt ((sg.length : ℝ)))))

/-- `Temperament.badness` = error · complexity / 1200. -/
noncomputable def badness {r : ℕ} (sg : List ℚ)
    (vals : Matrix (Fin r) (Fin sg.length) ℝ) (ntype : String) (norm : Norm) :
    Except Err (Option ℝ) :=
  match errorMeas sg vals ntype norm with
  | .error e => .error e
  | .ok oe =>
    match complexity sg vals ntype norm with
    | .error e2 => .error e2
    | .ok c => .ok (oe.map fun ev => ev * c / SCALAR)

/-- `Temperament.badness_logflat` = error · complexity^(n/(n−r)) / 1200;
n = r raises ZeroDivisionError in the exponent, caught and turned into
`np.nan` (modelled by `none`). -/
noncomputable def badness_logflat {r : ℕ} (sg : List ℚ)
    (vals : Matrix (Fin r) (Fin sg.length) ℝ) (ntype : String) (norm : Norm) :
    Except Err (Option ℝ) :=
  match errorMeas sg vals ntype norm with
  | .error e => .error e
  | .ok oe =>
    match complexity sg vals ntype norm with
    | .error e2 => .error e2
    | .ok c =>
      if sg.length = r then .ok none
      else .ok (oe.map fun ev =>
        ev * c ^ (((sg.length : ℝ)) / ((sg.length : ℝ) - (r : ℝ))) / SCALAR)

/-- The value of an `ok` result (used only to name concrete results in
witness statements). -/
def okD {α : Type} (e : Except Err α) (dflt : α) : α :=
  match e with
  | .ok x => x
  | .error _ => dflt

/-- C3 (amended): complexity, error and the badness measures built on them
fail with NotImplementedError whenever the norm order is not 2; but wedgie
performs NO such check — with skew 0 (and r ≤ n so that the minor list is
nonempty) it succeeds for ANY order. -/
theorem c3_measures_euclidean_only {r : ℕ} (sg : List ℚ)
    (vals : Matrix (Fin r) (Fin sg.length) ℝ) (ntype : String) (norm : Norm)
    (h2 : norm.order ≠ some 2) :
    complexity sg vals ntype norm =
      .error (.notImplemented "temperament measures only work for Euclidean norm as of now. ") ∧
    errorMeas sg vals ntype norm =
      .error (.notImplemented "temperament measures only work for Euclidean norm as of now. ") ∧
    badness sg vals ntype norm =
      .error (.notImplemented "temperament measures only work for Euclidean norm as of now. ") ∧
    badness_logflat sg vals ntype norm =
      .error (.notImplemented "temperament measures only work for Euclidean norm as of now. ") ∧
    (norm.skew = some 0 → r ≤ sg.length → ∃ L, wedgie sg vals norm = .ok L) ∧
    (norm.skew ≠ some 0 → wedgie sg vals norm =
      .error (.notImplemented "Weil skew only works with Euclidean norm as of now. ")) := by
  have hc : complexity sg vals ntype norm =
      .error (.notImplemented "temperament measures only work for Euclidean norm as of now. ") := by
    unfold complexity
    rw [if_pos h2]
  have he : errorMeas sg vals ntype norm =
      .error (.notImplemented "temperament measures only work for Euclidean norm as of now. ") := by
    unfold errorMeas
    rw [if_pos h2]
  refine ⟨hc, he, ?_, ?_, ?_, ?_⟩
  · unfold badness
    rw [he]
  · unfold badness_logflat
    rw [he]
  · intro h0 hr
    have hsk : (norm.get_weight sg).1.get_skew sg.length = .ok ⟨sg.length, 1⟩ := by
      unfold Norm.get_skew
      rw [if_pos (by rw [get_weight_fst_skew]; exact h0)]
    have hws : norm.weightskewed sg vals =
        .ok ⟨sg.length, vals * (norm.get_weight sg).2 *
          (1 : Matrix (Fin sg.length) (Fin sg.length) ℝ)⟩ := by
      unfold Norm.weightskewed
      rw [hsk]
    have hpos : 0 < (lexCombos (List.range sg.length) r).length := by
      rw [lexCombos_length, List.length_range]
      exact Nat.choose_pos hr
    cases hmap : (lexCombos (List.range sg.length) r).map
        (minorDet (vals * (norm.get_weight sg).2 *
          (1 : Matrix (Fin sg.length) (Fin sg.length) ℝ))) with
    | nil =>
      exfalso
      rw [List.map_eq_nil_iff] at hmap
      rw [hmap] at hpos
      exact absurd hpos (by simp)
    | cons w0 ws =>
      exact ⟨(w0 :: ws).map fun x => x * copysign1 w0, by simp only [wedgie, hws, hmap]⟩
  · intro hsk0
    have hskerr : (norm.get_weight sg).1.get_skew sg.length =
        .error (.notImplemented "Weil skew only works with Euclidean norm as of now. ") := by
      unfold Norm.get_skew
      rw [if_neg (by rw [get_weight_fst_skew]; exact hsk0),
        if_neg (by rw [get_weight_fst_order]; exact h2)]
    have hws : norm.weightskewed sg vals =
        .error (.notImplemented "Weil skew only works with Euclidean norm as of now. ") := by
      unfold Norm.weightskewed
      rw [hskerr]
    simp only [wedgie, hws]

/-- Witness for C3 at concrete inputs: the 5-limit mapping [[1,0,-4],[0,1,4]]
with an order-1 equilateral norm. -/
theorem c3_measures_euclidean_only_witness :
    (complexity [2, 3, 5] !![(1 : ℝ), 0, -4; 0, 1, 4] "breed" ⟨"equilateral", 1, some 0, some 1⟩ =
      .error (.notImplemented "temperament measures only work for Euclidean norm as of now. ")) ∧
    (∃ L, wedgie [2, 3, 5] !![(1 : ℝ), 0, -4; 0, 1, 4] ⟨"equilateral", 1, some 0, some 1⟩ =
      .ok L) :=
  ⟨(c3_measures_euclidean_only [2, 3, 5] !![(1 : ℝ), 0, -4; 0, 1, 4] "breed"
      ⟨"equilateral", 1, some 0, some 1⟩ (by decide)).1,
   (c3_measures_euclidean_only [2, 3, 5] !![(1 : ℝ), 0, -4; 0, 1, 4] "breed"
      ⟨"equilateral", 1, some 0, some 1⟩ (by decide)).2.2.2.2.1 rfl (by decide)⟩

/-- C3 counterexample: wedgie computed with an order-1 norm (skew 0)
succeeds, so NOT every temperament measure fails with NotImplementedError
when the order is not 2. -/
theorem c3_counterexample :
    (wedgie [2, 3] (1 : Matrix (Fin 2) (Fin 2) ℝ)
      ⟨"equilateral", 1, some 0, some 1⟩).isOk = true := by
  rfl

/-- C4: the wedgie is the list of r × r minor determinants of the
weight-skewed mapping over all size-r column combinations (in lexicographic
order), multiplied through by `copysign (1, first entry)`, so that the first
entry of the result is always nonnegative. -/
theorem c4_wedgie_minors_sign {r : ℕ} (sg : List ℚ)
    (vals : Matrix (Fin r) (Fin sg.length) ℝ) (norm : Norm) (L : List ℝ)
    (hok : wedgie sg vals norm = .ok L) :
    ∃ (m : ℕ) (Mx : Matrix (Fin r) (Fin m) ℝ) (d : List ℝ),
      norm.weightskewed sg vals = .ok ⟨m, Mx⟩ ∧
      d = (lexCombos (List.range sg.length) r).map (minorDet Mx) ∧
      L = d.map (fun x => x * copysign1 (d.headD 0)) ∧
      0 ≤ L.headD 0 := by
  unfold wedgie at hok
  cases hws : norm.weightskewed sg vals with
  | error e =>
    rw [hws] at hok
    exact absurd hok (by simp)
  | ok p =>
    obtain ⟨m, Mx⟩ := p
    rw [hws] at hok
    have hok2 : (match (lexCombos (List.range sg.length) r).map (minorDet Mx) with
        | [] => (.error (.indexError "index 0 is out of bounds for axis 0 with size 0") :
            Except Err (List ℝ))
        | w0 :: ws => .ok ((w0 :: ws).map fun x => x * copysign1 w0)) = .ok L := hok
    clear hok
    cases hmap : (lexCombos (List.range sg.length) r).map (minorDet Mx) with
    | nil =>
      rw [hmap] at hok2
      exact absurd hok2 (by simp)
    | cons w0 ws =>
      rw [hmap] at hok2
      have hL : L = (w0 :: ws).map fun x => x * copysign1 w0 := by
        have := hok2
        simp only [Except.ok.injEq] at this
        exact this.symm
      refine ⟨m, Mx, w0 :: ws, rfl, hmap.symm, ?_, ?_⟩
      · simpa using hL
      · have hhead : L.headD 0 = w0 * copysign1 w0 := by
          rw [hL]
          rfl
        rw [hhead]
        unfold copysign1
        by_cases hw : w0 < 0
        · rw [if_pos hw]
          nlinarith
        · rw [if_neg hw]
          simpa using le_of_not_lt hw

/-- Witness for C4: the 2 × 2 identity mapping over [2, 3] with an
equilateral Euclidean norm. -/
theorem c4_wedgie_minors_sign_witness :
    (wedgie [2, 3] (1 : Matrix (Fin 2) (Fin 2) ℝ) ⟨"equilateral", 1, some 0, some 2⟩ =
      .ok (okD (wedgie [2, 3] (1 : Matrix (Fin 2) (Fin 2) ℝ)
        ⟨"equilateral", 1, some 0, some 2⟩) [])) ∧
    0 ≤ (okD (wedgie [2, 3] (1 : Matrix (Fin 2) (Fin 2) ℝ)
        ⟨"equilateral", 1, some 0, some 2⟩) []).headD 0 := by
  have h := c4_wedgie_minors_sign [2, 3] (1 : Matrix (Fin 2) (Fin 2) ℝ)
    ⟨"equilateral", 1, some 0, some 2⟩
    (okD (wedgie [2, 3] (1 : Matrix (Fin 2) (Fin 2) ℝ) ⟨"equilateral", 1, some 0, some 2⟩) [])
    rfl
  obtain ⟨m, Mx, d, h1, h2, h3, h4⟩ := h
  exact ⟨rfl, h4⟩

/-! ## The tune front end and the enforce shorthand
(te_temperament_measures.py, `Temperament.tune` with the "main" optimizer;
the optimizer backend te_optimizer.py is not in the sources, and is
represented by `optimizer_main` from te_optimizer_legacy.py, which defines
the function of the same name and signature). -/

/-- One left-to-right pass of `re.findall ("[cd]\d+", enforce)`: the state
is the pending letter together with the digits accumulated so far (as a
number); a letter-digit run is emitted only once at least one digit has
followed the letter, matching the regex.  Each match `c<index>`/`d<index>`
is returned as the letter with `int (entry[1:])`. -/
def scanTokens : List Char → Option (Char × Option ℕ) → List (Char × ℕ)
  | [], pending =>
    match pending with
    | some (l, some v) => [(l, v)]
    | _ => []
  | ch :: cs, pending =>
    if ch.isDigit then
      match pending with
      | some (l, some v) => scanTokens cs (some (l, some (10 * v + (ch.toNat - 48))))
      | some (l, none) => scanTokens cs (some (l, some (ch.toNat - 48)))
      | none => scanTokens cs none
    else
      (match pending with
       | some (l, some v) => [(l, v)]
       | _ => []) ++
      scanTokens cs (if ch = 'c' ∨ ch = 'd' then some (ch, none) else none)

/-- `re.findall ("[cd]\d+", str (enforce))`, as letter/index pairs. -/
def findTokens (s : String) : List (Char × ℕ) := scanTokens s.data none

/-- `Temperament.__get_enforce_vec` for the "main" optimizer: index 0 is the
octave-equivalence enforcement `weightskew @ np.ones (weightskew.shape[1])`
(row sums of the weight-skewed identity); index k ≥ 1 is the standard basis
monzo of the k-th subgroup axis. -/
noncomputable def get_enforce_vec (sg : List ℚ) (norm : Norm) (idx : ℕ) :
    Except Err (Fin sg.length → ℝ) :=
  if idx = 0 then
    match norm.weightskewed sg (1 : Matrix (Fin sg.length) (Fin sg.length) ℝ) with
    | .error e => .error e
    | .ok ⟨_, Wsk⟩ => .ok (fun i => ∑ j, Wsk i j)
  else
    .ok (fun i => if (i : ℕ) = idx - 1 then 1 else 0)

/-- Sequencing of fallible element computations over a list (the loop in
`tune` raises out of the first failing `__get_enforce_vec` call). -/
def mapME {α β : Type} (f : α → Except Err β) : List α → Except Err (List β)
  | [] => .ok []
  | a :: l =>
    match f a with
    | .error e => .error e
    | .ok b =>
      match mapME f l with
      | .error e => .error e
      | .ok bs => .ok (b :: bs)

/-- The constraint monzos collected from the c-tokens, in token order. -/
noncomputable def parsedCons (sg : List ℚ) (norm : Norm) (toks : List (Char × ℕ)) :
    Except Err (List (Fin sg.length → ℝ)) :=
  mapME (fun t => get_enforce_vec sg norm t.2) (toks.filter fun t => t.1 = 'c')

/-- The destretch monzos collected from the d-tokens, in token order. -/
noncomputable def parsedDes (sg : List ℚ) (norm : Norm) (toks : List (Char × ℕ)) :
    Except Err (List (Fin sg.length → ℝ)) :=
  mapME (fun t => get_enforce_vec sg norm t.2) (toks.filter fun t => t.1 = 'd')

/-- `np.column_stack (lst) if lst else None`. -/
def listOpt {α : Type} : List α → Option (List α)
  | [] => none
  | a :: l => some (a :: l)

/-- The defaulting of a bare "c"/"d" enforce string (tune lines 101-104). -/
def normEnforce (e : String) : String :=
  if e = "c" then "c1" else if e = "d" then "d1" else e

/-- The body of `Temperament.tune` (with the "main" optimizer) after the
bare-"c"/"d" defaulting: when no explicit constraint or destretch lists are
supplied, the enforce string is parsed into them; the error/bias block at
the end of the source only prints and does not change the returned triple. -/
noncomputable def tuneBody {r : ℕ} (sg : List ℚ)
    (vals : Matrix (Fin r) (Fin sg.length) ℝ) (norm : Norm) (enforce : String)
    (cons des : Option (List (Fin sg.length → ℝ))) :
    Except Err ((Fin r → ℝ) × (Fin sg.length → ℝ) × (Fin sg.length → ℝ)) :=
  match cons, des with
  | none, none =>
    let toks := findTokens enforce
    match parsedCons sg norm toks, parsedDes sg norm toks with
    | .error e, _ => .error e
    | .ok _, .error e => .error e
    | .ok cl, .ok dl => optimizer_main sg vals norm (listOpt cl) (listOpt dl)
  | c, d => optimizer_main sg vals norm c d

/-- `Temperament.tune` with the "main" optimizer. -/
noncomputable def tune {r : ℕ} (sg : List ℚ)
    (vals : Matrix (Fin r) (Fin sg.length) ℝ) (norm : Norm) (enforce : String)
    (cons des : Option (List (Fin sg.length → ℝ))) :
    Except Err ((Fin r → ℝ) × (Fin sg.length → ℝ) × (Fin sg.length → ℝ)) :=
  tuneBody sg vals norm (normEnforce enforce) cons des

/-- C8: each token `c<index>` of the enforce shorthand is parsed into a
constraint monzo for interval/axis `index` — index 0 is the
octave-equivalence enforcement vector, index k ≥ 1 the k-th subgroup axis
basis monzo — `d<index>` likewise into a destretch monzo, and exactly these
monzo lists are what `tune` passes to the optimizer. -/
theorem c8_enforce_shorthand {r : ℕ} (sg : List ℚ)
    (vals : Matrix (Fin r) (Fin sg.length) ℝ) (norm : Norm) :
    (∀ k : ℕ, get_enforce_vec sg norm (k + 1) =
      .ok (fun i => if (i : ℕ) = k then 1 else 0)) ∧
    (get_enforce_vec sg norm 0 =
      match norm.weightskewed sg (1 : Matrix (Fin sg.length) (Fin sg.length) ℝ) with
      | .error e => .error e
      | .ok p => .ok (fun i => ∑ j, p.2 i j)) ∧
    (∀ enforce : String,
      tune sg vals norm enforce none none =
        match parsedCons sg norm (findTokens (normEnforce enforce)),
              parsedDes sg norm (findTokens (normEnforce enforce)) with
        | .error e, _ => .error e
        | .ok _, .error e => .error e
        | .ok cl, .ok dl => optimizer_main sg vals norm (listOpt cl) (listOpt dl)) := by
  refine ⟨fun k => ?_, ?_, fun enforce => ?_⟩
  · unfold get_enforce_vec
    rw [if_neg (Nat.succ_ne_zero k)]
    simp
  · unfold get_enforce_vec
    rw [if_pos rfl]
    cases norm.weightskewed sg (1 : Matrix (Fin sg.length) (Fin sg.length) ℝ) with
    | error e => rfl
    | ok p => rfl
  · rfl

/-- C10: `tune` with enforce "c" behaves exactly as with "c1" and with "d"
exactly as with "d1": the returned generator map, tuning map and error map
triples are identical. -/
theorem c10_bare_enforce_defaults {r : ℕ} (sg : List ℚ)
    (vals : Matrix (Fin r) (Fin sg.length) ℝ) (norm : Norm) :
    tune sg vals norm "c" none none = tune sg vals norm "c1" none none ∧
    tune sg vals norm "d" none none = tune sg vals norm "d1" none none :=
  ⟨congrArg (fun s => tuneBody sg vals norm s none none)
      (by decide : normEnforce "c" = normEnforce "c1"),
   congrArg (fun s => tuneBody sg vals norm s none none)
      (by decide : normEnforce "d" = normEnforce "d1")⟩

/-! ## The Temperament constructor (te_temperament_measures.py, `__init__`)

The constructor runs `te.get_subgroup`, then stores
`te.canonicalize (np.rint (vals).astype (int), saturate, normalize)`.
`np.rint` rounds to the nearest integer, ties to even.  The helper module
te_common.py is not among the sources; `get_subgroup` is modelled after the
identical legacy helper `__get_subgroup` and §4.2 of the spec, and
`canonicalize` is modelled from the spec.  Ragged input lists are outside
the model (numpy arrays are rectangular). -/

/-- `np.rint` on a rational scalar: round to nearest, ties to even.
All arithmetic is on the integer numerator/denominator:
`2 * (q.num - floor q * q.den)` compared with `q.den` decides whether the
fractional part is below, above, or exactly one half. -/
def rint (q : ℚ) : ℤ :=
  if 2 * (q.num - Rat.floor q * (q.den : ℤ)) < (q.den : ℤ) then Rat.floor q
  else if (q.den : ℤ) < 2 * (q.num - Rat.floor q * (q.den : ℤ)) then Rat.floor q + 1
  else if Rat.floor q % 2 = 0 then Rat.floor q
  else Rat.floor q + 1

/-- Modelled from the spec: `te.canonicalize` (te_common.py, not among the
sources) — "saturated (each val reduced to its primitive integer form with
no common factor along defining directions) and normalized (sign/ordering
convention fixed)": each row is divided by the gcd of its entries and its
sign is fixed so that the first nonzero entry is positive. -/
def canonicalize (m : List (List ℤ)) : List (List ℤ) :=
  m.map fun row =>
    let g : ℕ := row.foldr (fun x a => Int.gcd x (a : ℤ)) 0
    let row2 := if g = 0 then row else row.map (fun x => x / (g : ℤ))
    match row2.find? (fun x => x != 0) with
    | some x => if x < 0 then row2.map (fun y => -y) else row2
    | none => row2

/-- Modelled from the spec: `te.get_subgroup` (te_common.py, not among the
sources; §4.2) — default to the first primes when no subgroup is given;
on a length mismatch truncate both to the smaller dimension with a warning. -/
def get_subgroup_l (vals : List (List ℚ)) (subgroup : Option (List ℚ)) :
    List (List ℚ) × List ℚ :=
  match subgroup with
  | none => (vals, PRIME_LIST.take (vals.headD []).length)
  | some sg =>
    if (vals.headD []).length = sg.length then (vals, sg)
    else
      (vals.map fun row => row.take (min (vals.headD []).length sg.length),
       sg.take (min (vals.headD []).length sg.length))

/-- The state stored by `Temperament.__init__`: the subgroup and the
canonicalized integer mapping (`self.vals`).  The just tuning map is a
derived quantity (`jip` of the subgroup). -/
structure TemperamentL where
  subgroup : List ℚ
  vals : List (List ℤ)
deriving DecidableEq

/-- `Temperament.__init__ (vals, subgroup, saturate, normalize)`: note that
the mapping entries go through `np.rint (...).astype (int)` — non-integer
entries are silently rounded, and NO error of any kind is raised for them. -/
def TemperamentInit (vals : List (List ℚ)) (subgroup : Option (List ℚ)) :
    TemperamentL :=
  let p := get_subgroup_l vals subgroup
  ⟨p.2, canonicalize (p.1.map fun row => row.map rint)⟩

/-- `rint` rounds to a nearest integer: the distance to the input is at most
one half. -/
lemma rint_dist (q : ℚ) : |((rint q : ℤ) : ℚ) - q| ≤ 1 / 2 := by
  have hf : (Rat.floor q) = ⌊q⌋ := rfl
  have h1 : ((⌊q⌋ : ℤ) : ℚ) ≤ q := Int.floor_le q
  have h2 : q < ((⌊q⌋ : ℤ) : ℚ) + 1 := Int.lt_floor_add_one q
  have hden : (0 : ℚ) < (q.den : ℚ) := by
    exact_mod_cast q.pos
  have hdne : ((q.den : ℚ)) ≠ 0 := ne_of_gt hden
  have hq : (q.num : ℚ) = q * (q.den : ℚ) :=
    (div_eq_iff hdne).mp (Rat.num_div_den q)
  have ht : ((2 * (q.num - ⌊q⌋ * (q.den : ℤ)) : ℤ) : ℚ) =
      2 * (q - ((⌊q⌋ : ℤ) : ℚ)) * (q.den : ℚ) := by
    push_cast
    rw [hq]
    ring
  unfold rint
  rw [hf]
  split_ifs with hlt hgt heven
  · have : 2 * (q - ((⌊q⌋ : ℤ) : ℚ)) * (q.den : ℚ) < (q.den : ℚ) := by
      rw [← ht]
      exact_mod_cast hlt
    rw [abs_sub_le_iff]
    constructor <;> nlinarith
  · have : (q.den : ℚ) < 2 * (q - ((⌊q⌋ : ℤ) : ℚ)) * (q.den : ℚ) := by
      rw [← ht]
      exact_mod_cast hgt
    rw [abs_sub_le_iff]
    push_cast
    constructor <;> nlinarith
  · have : 2 * (q - ((⌊q⌋ : ℤ) : ℚ)) * (q.den : ℚ) = (q.den : ℚ) := by
      rw [← ht]
      exact_mod_cast le_antisymm (le_of_not_lt hgt) (le_of_not_lt hlt)
    rw [abs_sub_le_iff]
    constructor <;> nlinarith
  · have : 2 * (q - ((⌊q⌋ : ℤ) : ℚ)) * (q.den : ℚ) = (q.den : ℚ) := by
      rw [← ht]
      exact_mod_cast le_antisymm (le_of_not_lt hgt) (le_of_not_lt hlt)
    rw [abs_sub_le_iff]
    push_cast
    constructor <;> nlinarith

/-- C6 (amended): the constructor never fails on non-integer entries — it is
a total function that silently rounds every mapping entry to a nearest
integer (np.rint, within one half) and canonicalizes the rounded integer
matrix.  Out-of-range indices read the shared default 0. -/
theorem c6_constructor_rounds (vals : List (List ℚ)) (subgroup : Option (List ℚ)) :
    ∃ M : List (List ℤ),
      (TemperamentInit vals subgroup).vals = canonicalize M ∧
      ∀ i j : ℕ,
        |(((M.getD i []).getD j 0 : ℤ) : ℚ) -
          ((get_subgroup_l vals subgroup).1.getD i []).getD j 0| ≤ 1 / 2 := by
  refine ⟨(get_subgroup_l vals subgroup).1.map (fun row => row.map rint), ?_, ?_⟩
  · rfl
  have key : ∀ (row : List ℚ) (j : ℕ),
      |(((row.map rint).getD j 0 : ℤ) : ℚ) - row.getD j 0| ≤ 1 / 2 := by
    intro row
    induction row with
    | nil =>
      intro j
      simp
    | cons x xs ih =>
      intro j
      cases j with
      | zero => simpa using rint_dist x
      | succ jj => simpa using ih jj
  have houter : ∀ (l : List (List ℚ)) (i : ℕ),
      (l.map fun row => row.map rint).getD i [] = (l.getD i []).map rint := by
    intro l
    induction l with
    | nil =>
      intro i
      simp
    | cons x xs ih =>
      intro i
      cases i with
      | zero => simp
      | succ ii => simpa using ih ii
  intro i j
  rw [houter]
  exact key _ j

/-- C6 counterexample: a mapping with the non-integer entry 3/2 is accepted
without any error — the constructor returns a Temperament whose stored
mapping is the rounded (3/2 ↦ 2, ties to even) and canonicalized matrix,
rather than failing with ValidationError. -/
theorem c6_counterexample :
    TemperamentInit [[mkRat 3 2, 0], [0, 1]] (some [2, 3]) =
      ⟨[2, 3], [[1, 0], [0, 1]]⟩ := by
  decide

/-! ## Complexity spectrum (te_lattice.py)

`find_temperamental_norm` uses `norm.tuning_x` and `norm.interval_x` from
te_common.py (not among the sources; their numeric forms are modelled from
§4.1 of the spec and from the symbolic analogues `tuning_x_sym` /
`interval_x_sym` in te_symbolic.py: `tuning_x` is exactly the legacy
`weightskewed`, and `interval_x` applies the interval-space weight and the
row-appended interval-space skew from the left).  It also reads the
temperament mapping attribute (named `mapping` in the 1.0.x lattice file,
`vals` in the 0.26.x measures file); the mapping matrix is passed directly
here. -/

/-- Modelled from the spec: the interval-space weight (§4.1; the inverse of
the tuning weight, cf. `__get_interval_weight_sym`): diagonal entries
`base (subgroup_i) ^ wamount`, unknown kind degrading to tenney. -/
noncomputable def interval_weight (norm : Norm) (sg : List ℚ) :
    Matrix (Fin sg.length) (Fin sg.length) ℝ :=
  if norm.wtype = "tenney" then
    Matrix.diagonal fun i => (Real.logb 2 (sg.get i)) ^ ((norm.wamount : ℝ))
  else if norm.wtype = "wilson" ∨ norm.wtype = "benedetti" then
    Matrix.diagonal fun i => ((sg.get i : ℚ) : ℝ) ^ ((norm.wamount : ℝ))
  else if norm.wtype = "equilateral" then
    Matrix.diagonal fun _ => (1 : ℝ) ^ ((norm.wamount : ℝ))
  else
    Matrix.diagonal fun i => (Real.logb 2 (sg.get i)) ^ ((norm.wamount : ℝ))

/-- Modelled from the spec: the interval-space skew (§4.1; cf.
`__get_interval_skew_sym`): identity when skew = 0, else the (n+1) × n
column of the identity over a row of ones, with the unsupported-order
failure of §7 when skew ≠ 0 and order ≠ 2. -/
noncomputable def interval_skew (norm : Norm) (n : ℕ) :
    Except Err ((m : ℕ) × Matrix (Fin m) (Fin n) ℝ) :=
  if norm.skew = some 0 then
    .ok ⟨n, 1⟩
  else if norm.order = some 2 then
    .ok ⟨n + 1, Matrix.of (Fin.append
      (fun i : Fin n => fun j => (1 : Matrix (Fin n) (Fin n) ℝ) i j)
      (fun _ : Fin 1 => fun _ => (1 : ℝ)))⟩
  else
    .error (.notImplemented "Weil skew only works with Euclidean norm as of now. ")

/-- Modelled from the spec: `norm.interval_x (monzo, subgroup)` =
interval skew @ interval weight @ monzo. -/
noncomputable def interval_x (norm : Norm) (sg : List ℚ)
    (monzo : Fin sg.length → ℝ) : Except Err ((m : ℕ) × (Fin m → ℝ)) :=
  match interval_skew norm sg.length with
  | .error e => .error e
  | .ok ⟨m, Sk⟩ =>
    .ok ⟨m, Matrix.mulVec Sk (Matrix.mulVec (interval_weight norm sg) monzo)⟩

/-- `self.mapping[1:]`: the mapping without its first (octave) row. -/
def dropRow {a n : ℕ} (M : Matrix (Fin a) (Fin n) ℝ) :
    Matrix (Fin (a - 1)) (Fin n) ℝ :=
  fun i j => M ⟨(i : ℕ) + 1, by omega⟩ j

/-- The computational core of `find_temperamental_norm` for a given mapping
copy: `sqrt (monzo_x.T @ pinv (mapping_x) @ mapping_x @ monzo_x)` where
`mapping_x = norm.tuning_x (mapping)` (the legacy `weightskewed`) and
`monzo_x = norm.interval_x (monzo)`.  numpy aligns the shapes at run time;
they agree because both skews add the same extra dimension. -/
noncomputable def tnormCore {a : ℕ} (sg : List ℚ)
    (mapping : Matrix (Fin a) (Fin sg.length) ℝ) (norm : Norm)
    (monzo : Fin sg.length → ℝ) : Except Err ℝ :=
  match norm.weightskewed sg mapping with
  | .error e => .error e
  | .ok ⟨m, Mx⟩ =>
    match interval_x norm sg monzo with
    | .error e => .error e
    | .ok ⟨m2, mxv⟩ =>
      if h : m2 = m then
        .ok (Real.sqrt (Matrix.dotProduct (h ▸ mxv)
          (Matrix.mulVec (mpPinv Mx * Mx) (h ▸ mxv))))
      else .error (.valueError "shapes not aligned")

/-- `TemperamentLattice.find_temperamental_norm` (without the display):
under octave equivalence the first mapping row is dropped. -/
noncomputable def find_temperamental_norm {a : ℕ} (sg : List ℚ)
    (mapping : Matrix (Fin a) (Fin sg.length) ℝ) (norm : Norm) (oe : Bool)
    (monzo : Fin sg.length → ℝ) : Except Err ℝ :=
  if oe then tnormCore sg (dropRow mapping) norm monzo
  else tnormCore sg mapping norm monzo

/-- The unsorted spectrum: each monzo paired with its temperamental norm,
in input order (the list comprehension in `find_complexity_spectrum`). -/
noncomputable def spectrumRaw {a : ℕ} (sg : List ℚ)
    (mapping : Matrix (Fin a) (Fin sg.length) ℝ) (norm : Norm) (oe : Bool)
    (monzos : List (Fin sg.length → ℝ)) :
    Except Err (List ((Fin sg.length → ℝ) × ℝ)) :=
  mapME (fun mz =>
    match find_temperamental_norm sg mapping norm oe mz with
    | .error e => .error e
    | .ok t => .ok (mz, t)) monzos

/-- `TemperamentLattice.find_complexity_spectrum`: the spectrum sorted
ascending by the norm entry with Python's stable `list.sort`. -/
noncomputable def find_complexity_spectrum {a : ℕ} (sg : List ℚ)
    (mapping : Matrix (Fin a) (Fin sg.length) ℝ) (norm : Norm) (oe : Bool)
    (monzos : List (Fin sg.length → ℝ)) :
    Except Err (List ((Fin sg.length → ℝ) × ℝ)) :=
  match spectrumRaw sg mapping norm oe monzos with
  | .error e => .error e
  | .ok sp => .ok (sp.mergeSort (fun x y => decide (x.2 ≤ y.2)))

set_option linter.deprecated false in
/-- C9: `find_complexity_spectrum` computes each interval's norm under the
tempering's induced projection (restricting the mapping to its non-octave
rows when octave equivalence is requested) and outputs the intervals sorted
ascending by that norm; the sort is stable, so ties keep their input order
(any two entries with equal norms that appear in input order reappear in
that order). -/
theorem c9_spectrum_sorted_stable {a : ℕ} (sg : List ℚ)
    (mapping : Matrix (Fin a) (Fin sg.length) ℝ) (norm : Norm) (oe : Bool)
    (monzos : List (Fin sg.length → ℝ)) (sp : List ((Fin sg.length → ℝ) × ℝ))
    (hsp : spectrumRaw sg mapping norm oe monzos = .ok sp) :
    find_complexity_spectrum sg mapping norm oe monzos =
      .ok (sp.mergeSort (fun x y => decide (x.2 ≤ y.2))) ∧
    (sp.mergeSort (fun x y => decide (x.2 ≤ y.2))).Pairwise (fun x y => x.2 ≤ y.2) ∧
    (sp.mergeSort (fun x y => decide (x.2 ≤ y.2))).Perm sp ∧
    (∀ x y, x.2 = y.2 → [x, y].Sublist sp →
      [x, y].Sublist (sp.mergeSort (fun x y => decide (x.2 ≤ y.2)))) := by
  have htrans : ∀ (x y z : (Fin sg.length → ℝ) × ℝ),
      (fun u v : (Fin sg.length → ℝ) × ℝ => decide (u.2 ≤ v.2)) x y = true →
      (fun u v : (Fin sg.length → ℝ) × ℝ => decide (u.2 ≤ v.2)) y z = true →
      (fun u v : (Fin sg.length → ℝ) × ℝ => decide (u.2 ≤ v.2)) x z = true := by
    intro x y z hxy hyz
    simp only [decide_eq_true_eq] at hxy hyz ⊢
    exact le_trans hxy hyz
  have htotal : ∀ (x y : (Fin sg.length → ℝ) × ℝ),
      ((fun u v : (Fin sg.length → ℝ) × ℝ => decide (u.2 ≤ v.2)) x y ||
       (fun u v : (Fin sg.length → ℝ) × ℝ => decide (u.2 ≤ v.2)) y x) = true := by
    intro x y
    simp only [Bool.or_eq_true, decide_eq_true_eq]
    exact le_total x.2 y.2
  refine ⟨?_, ?_, List.mergeSort_perm sp _, ?_⟩
  · unfold find_complexity_spectrum
    rw [hsp]
  · exact (List.sorted_mergeSort htrans htotal sp).imp fun h => by
      simpa only [decide_eq_true_eq] using h
  · intro x y hxy hsub
    exact List.mergeSort_stable_pair htrans htotal
      (by simp only [decide_eq_true_eq]; exact hxy.le) hsub

/-- Witness for C9: the identity mapping over [2, 3] with an equilateral
Euclidean norm and two identical monzos (a tie). -/
theorem c9_spectrum_sorted_stable_witness :
    (find_complexity_spectrum [2, 3] (1 : Matrix (Fin 2) (Fin 2) ℝ)
        ⟨"equilateral", 1, some 0, some 2⟩ true [fun _ => 1, fun _ => 1] =
      .ok ((okD (spectrumRaw [2, 3] (1 : Matrix (Fin 2) (Fin 2) ℝ)
            ⟨"equilateral", 1, some 0, some 2⟩ true [fun _ => 1, fun _ => 1]) []).mergeSort
          (fun x y => decide (x.2 ≤ y.2)))) ∧
    ((okD (spectrumRaw [2, 3] (1 : Matrix (Fin 2) (Fin 2) ℝ)
        ⟨"equilateral", 1, some 0, some 2⟩ true [fun _ => 1, fun _ => 1]) []).mergeSort
          (fun x y => decide (x.2 ≤ y.2))).Pairwise (fun x y => x.2 ≤ y.2) ∧
    ((okD (spectrumRaw [2, 3] (1 : Matrix (Fin 2) (Fin 2) ℝ)
        ⟨"equilateral", 1, some 0, some 2⟩ true [fun _ => 1, fun _ => 1]) []).mergeSort
          (fun x y => decide (x.2 ≤ y.2))).Perm
      (okD (spectrumRaw [2, 3] (1 : Matrix (Fin 2) (Fin 2) ℝ)
        ⟨"equilateral", 1, some 0, some 2⟩ true [fun _ => 1, fun _ => 1]) []) := by
  have h := c9_spectrum_sorted_stable [2, 3] (1 : Matrix (Fin 2) (Fin 2) ℝ)
    ⟨"equilateral", 1, some 0, some 2⟩ true [fun _ => 1, fun _ => 1]
    (okD (spectrumRaw [2, 3] (1 : Matrix (Fin 2) (Fin 2) ℝ)
      ⟨"equilateral", 1, some 0, some 2⟩ true [fun _ => 1, fun _ => 1]) [])
    rfl
  exact ⟨h.1, h.2.1, h.2.2.1⟩

end TE
